import Mathlib

/-
Verification of the fast_bitfield crate: a flat one-word bitmap (SmallBitField,
src/src/small_bitfield.rs) and a hierarchical bitmap (LargeBitField,
src/src/large_bitfield.rs) made of W group words plus a one-word summary
(layer_cache) whose bit g tracks whether group g is non-zero.

Machine words (Rust usize, W bits) are modelled as Nat together with the
well-formedness bound value < 2 ^ w; the word width W is the parameter w.
Rust release builds mask shift amounts by the word width, so a shift whose
amount may reach w is written with the amount taken mod w; debug builds panic
on such a shift, which is modelled separately by an Option-valued variant.
-/

/-- Bitwise complement of a w-bit word: Rust `!v` on usize. -/
def wnot (w v : Nat) : Nat := (2 ^ w - 1) ^^^ v

/-- Index of the least set bit of a positive number (Rust `trailing_zeros` on
a non-zero word). -/
def lowBit (v : Nat) : Nat :=
  if h : v = 0 then 0
  else if v % 2 = 1 then 0
  else lowBit (v / 2) + 1
decreasing_by exact Nat.div_lt_self (Nat.pos_of_ne_zero h) (by decide)

/-- Number of binary digits of v (0 for 0). -/
def bitLen (v : Nat) : Nat := if v = 0 then 0 else Nat.log2 v + 1

/-- Count of leading zero bits of a w-bit word, Rust `leading_zeros`. -/
def leadingZeros (w v : Nat) : Nat := w - bitLen v

/-- Models find_lowest_set_bit (src/src/lib.rs, lines 195-203): the hardware
path is `value.trailing_zeros()`; the De Bruijn fallback is an external crate
bound by the same contract (spec section 6), so only this path is embedded.
On a w-bit word, trailing_zeros of 0 is w. -/
def findLowestSetBit (w value : Nat) : Nat :=
  if value = 0 then w else lowBit value

/-- Models find_highest_set_bit (src/src/lib.rs, lines 205-212): the hardware
path is `W - 1 - value.leading_zeros()`; the De Bruijn fallback is an external
crate bound by the same contract. -/
def findHighestSetBit (w value : Nat) : Nat :=
  w - 1 - leadingZeros w value

/-- Naive ascending linear scan: first index i with start ≤ i < start + fuel
such that p i holds. -/
def scanLowestFrom (p : Nat → Bool) : Nat → Nat → Option Nat
  | _, 0 => none
  | start, fuel + 1 => if p start then some start else scanLowestFrom p (start + 1) fuel

/-- Result of a naive linear scan for the least index below cap satisfying p. -/
def naiveLowest (cap : Nat) (p : Nat → Bool) : Option Nat :=
  scanLowestFrom p 0 cap

/-- Result of a naive linear scan (from the top) for the greatest index below
cap satisfying p. -/
def naiveHighest : Nat → (Nat → Bool) → Option Nat
  | 0, _ => none
  | cap + 1, p => if p cap then some cap else naiveHighest cap p

/-- Models the SmallBitField struct (src/src/small_bitfield.rs): one usize. -/
structure SmallBitField where
  bitfield : Nat
deriving DecidableEq

namespace SmallBitField

/-- Models SmallBitField::new. -/
def new : SmallBitField := { bitfield := 0 }

/-- Models SmallBitField::set_bit (src/src/small_bitfield.rs, lines 58-62). -/
def set_bit (w : Nat) (s : SmallBitField) (index : Nat) : SmallBitField :=
  if index < w then { bitfield := s.bitfield ||| 1 <<< index } else s

/-- Models SmallBitField::clear_bit (src/src/small_bitfield.rs, lines 68-72). -/
def clear_bit (w : Nat) (s : SmallBitField) (index : Nat) : SmallBitField :=
  if index < w then { bitfield := s.bitfield &&& wnot w (1 <<< index) } else s

/-- Models SmallBitField::set_field. -/
def set_field (s : SmallBitField) (field : Nat) : SmallBitField :=
  { bitfield := s.bitfield ||| field }

/-- Models SmallBitField::clear_field. -/
def clear_field (w : Nat) (s : SmallBitField) (field : Nat) : SmallBitField :=
  { bitfield := s.bitfield &&& wnot w field }

/-- Models SmallBitField::test_bit_unchecked. -/
def test_bit_unchecked (s : SmallBitField) (index : Nat) : Bool :=
  (s.bitfield &&& (1 <<< index)) != 0

/-- Models SmallBitField::test_bit (src/src/small_bitfield.rs, lines 153-166). -/
def test_bit (w : Nat) (s : SmallBitField) (index : Nat) : Option Bool :=
  if index < w then some (s.test_bit_unchecked index) else none

/-- Models SmallBitField::is_empty. -/
def is_empty (s : SmallBitField) : Bool :=
  s.bitfield == 0

/-- Models SmallBitField::get_lowest_set_bit_unchecked. -/
def get_lowest_set_bit_unchecked (w : Nat) (s : SmallBitField) : Nat :=
  findLowestSetBit w s.bitfield

/-- Models SmallBitField::get_highest_set_bit_unchecked. -/
def get_highest_set_bit_unchecked (w : Nat) (s : SmallBitField) : Nat :=
  findHighestSetBit w s.bitfield

/-- Models SmallBitField::get_lowest_set_bit (src/src/small_bitfield.rs,
lines 94-100). -/
def get_lowest_set_bit (w : Nat) (s : SmallBitField) : Option Nat :=
  if s.is_empty then none else some (s.get_lowest_set_bit_unchecked w)

/-- Models SmallBitField::get_highest_set_bit (src/src/small_bitfield.rs,
lines 122-128). -/
def get_highest_set_bit (w : Nat) (s : SmallBitField) : Option Nat :=
  if s.is_empty then none else some (s.get_highest_set_bit_unchecked w)

/-- Representable states of the W-bit flat bitmap: the word fits in W bits. -/
def wellFormed (w : Nat) (s : SmallBitField) : Prop :=
  s.bitfield < 2 ^ w

end SmallBitField

/-- Models the LargeBitField struct (src/src/large_bitfield.rs): the summary
word layer_cache plus the array of W group words. -/
structure LargeBitField where
  layer_cache : Nat
  bitfield : List Nat
deriving DecidableEq

namespace LargeBitField

/-- Models LargeBitField::new. -/
def new (w : Nat) : LargeBitField :=
  { layer_cache := 0, bitfield := List.replicate w 0 }

/-- Group word g of the bitfield array (0 when out of bounds, which models
get_unchecked under the caller-supplied bound). -/
def group (s : LargeBitField) (g : Nat) : Nat :=
  s.bitfield.getD g 0

/-- Models LargeBitField::set_bit (src/src/large_bitfield.rs, lines 209-222).
The source ORs layer_cache with `1 << top_layer` before the bounds test that
get_mut performs, so the shift amount can reach the word width: the release
build masks it mod w (the debug build panics, see set_bit_dbg). -/
def set_bit (w : Nat) (s : LargeBitField) (index : Nat) : LargeBitField :=
  let top_layer := index / w
  let bottom_layer := index % w
  let lc := s.layer_cache ||| 1 <<< (top_layer % w)
  if top_layer < s.bitfield.length then
    { layer_cache := lc,
      bitfield := s.bitfield.set top_layer (s.group top_layer ||| 1 <<< bottom_layer) }
  else
    { layer_cache := lc, bitfield := s.bitfield }

/-- Models LargeBitField::set_bit under debug-build semantics, where a shift
amount at or above the word width panics (none) instead of being masked. -/
def set_bit_dbg (w : Nat) (s : LargeBitField) (index : Nat) : Option LargeBitField :=
  let top_layer := index / w
  let bottom_layer := index % w
  if top_layer < w then
    let lc := s.layer_cache ||| 1 <<< top_layer
    if top_layer < s.bitfield.length then
      some { layer_cache := lc,
             bitfield := s.bitfield.set top_layer (s.group top_layer ||| 1 <<< bottom_layer) }
    else
      some { layer_cache := lc, bitfield := s.bitfield }
  else
    none

/-- Models the earlier revision of LargeBitField::set_bit kept in
src/src/lib.rs (lines 124-138), which rejects index >= W * W before touching
any state. -/
def set_bit_v0 (w : Nat) (s : LargeBitField) (index : Nat) : LargeBitField :=
  if index ≥ w * w then s
  else
    let top_layer := index / w
    let bottom_layer := index % w
    { layer_cache := s.layer_cache ||| 1 <<< top_layer,
      bitfield := s.bitfield.set top_layer (s.group top_layer ||| 1 <<< bottom_layer) }

/-- Models LargeBitField::clear_bit (src/src/large_bitfield.rs, lines 228-242):
the bounds test of get_mut comes first, then the group word is cleared and the
summary bit is re-derived when the group becomes zero. -/
def clear_bit (w : Nat) (s : LargeBitField) (index : Nat) : LargeBitField :=
  let top_layer := index / w
  let bottom_layer := index % w
  if top_layer < s.bitfield.length then
    let sub_field := s.group top_layer &&& wnot w (1 <<< bottom_layer)
    { layer_cache :=
        if sub_field = 0 then s.layer_cache &&& wnot w (1 <<< top_layer) else s.layer_cache,
      bitfield := s.bitfield.set top_layer sub_field }
  else s

/-- Models LargeBitField::set_group_unchecked (src/src/large_bitfield.rs,
lines 157-165): the summary bit is ORed in only when group_field is non-zero. -/
def set_group_unchecked (s : LargeBitField) (group_index group_field : Nat) : LargeBitField :=
  let field_has_values : Nat := if group_field ≠ 0 then 1 else 0
  let layer_cache_update := (1 <<< group_index) * field_has_values
  { layer_cache := s.layer_cache ||| layer_cache_update,
    bitfield := s.bitfield.set group_index (s.group group_index ||| group_field) }

/-- Models LargeBitField::clear_group_unchecked (src/src/large_bitfield.rs,
lines 177-184): branch-free re-derivation of the summary bit. -/
def clear_group_unchecked (w : Nat) (s : LargeBitField) (group_index group_field : Nat) :
    LargeBitField :=
  let sub_field := s.group group_index &&& wnot w group_field
  let is_clear : Nat := if sub_field = 0 then 1 else 0
  { layer_cache := s.layer_cache &&& wnot w ((1 <<< group_index) * is_clear),
    bitfield := s.bitfield.set group_index sub_field }

/-- Models LargeBitField::set_group (src/src/large_bitfield.rs, lines 63-74). -/
def set_group (w : Nat) (s : LargeBitField) (group_index group_field : Nat) : LargeBitField :=
  if group_index < w then s.set_group_unchecked group_index group_field else s

/-- Models LargeBitField::clear_group (src/src/large_bitfield.rs, lines 85-96). -/
def clear_group (w : Nat) (s : LargeBitField) (group_index group_field : Nat) : LargeBitField :=
  if group_index < w then clear_group_unchecked w s group_index group_field else s

/-- Models LargeBitField::set_field (src/src/large_bitfield.rs, lines 102-112). -/
def set_field (w : Nat) (s : LargeBitField) (values : List Nat) : LargeBitField :=
  (List.range w).foldl (fun st i => st.set_group_unchecked i (values.getD i 0)) s

/-- Models LargeBitField::clear_field (src/src/large_bitfield.rs,
lines 118-128). -/
def clear_field (w : Nat) (s : LargeBitField) (values : List Nat) : LargeBitField :=
  (List.range w).foldl (fun st i => clear_group_unchecked w st i (values.getD i 0)) s

/-- Models LargeBitField::test_group_unchecked. -/
def test_group_unchecked (s : LargeBitField) (group_index : Nat) : Bool :=
  (s.layer_cache &&& (1 <<< group_index)) != 0

/-- Models LargeBitField::test_group (src/src/large_bitfield.rs, lines 39-52). -/
def test_group (w : Nat) (s : LargeBitField) (group_index : Nat) : Option Bool :=
  if group_index < w then some (s.test_group_unchecked group_index) else none

/-- Models LargeBitField::test_bit_unchecked (src/src/large_bitfield.rs,
lines 410-416). -/
def test_bit_unchecked (w : Nat) (s : LargeBitField) (index : Nat) : Bool :=
  (s.group (index / w) &&& (1 <<< (index % w))) != 0

/-- Models LargeBitField::test_bit (src/src/large_bitfield.rs, lines 277-290). -/
def test_bit (w : Nat) (s : LargeBitField) (index : Nat) : Option Bool :=
  if index < w * w then some (s.test_bit_unchecked w index) else none

/-- Models LargeBitField::is_empty. -/
def is_empty (s : LargeBitField) : Bool :=
  s.layer_cache == 0

/-- Models LargeBitField::get_lowest_set_bit_unchecked (src/src/large_bitfield.rs,
lines 325-337): bit-scan the summary, then the selected group. -/
def get_lowest_set_bit_unchecked (w : Nat) (s : LargeBitField) : Nat :=
  let level := findLowestSetBit w s.layer_cache
  level * w + findLowestSetBit w (s.group level)

/-- Models LargeBitField::get_highest_set_bit_unchecked (src/src/large_bitfield.rs,
lines 347-359). -/
def get_highest_set_bit_unchecked (w : Nat) (s : LargeBitField) : Nat :=
  let level := findHighestSetBit w s.layer_cache
  level * w + findHighestSetBit w (s.group level)

/-- Models LargeBitField::get_lowest_set_bit (src/src/large_bitfield.rs,
lines 248-254). -/
def get_lowest_set_bit (w : Nat) (s : LargeBitField) : Option Nat :=
  if s.is_empty then none else some (s.get_lowest_set_bit_unchecked w)

/-- Models LargeBitField::get_highest_set_bit (src/src/large_bitfield.rs,
lines 260-266). -/
def get_highest_set_bit (w : Nat) (s : LargeBitField) : Option Nat :=
  if s.is_empty then none else some (s.get_highest_set_bit_unchecked w)

/-- Summary invariant of the hierarchical bitmap (spec section 3): bit g of
layer_cache is set iff group word g is non-zero. -/
def layerInvariant (w : Nat) (s : LargeBitField) : Prop :=
  ∀ g, g < w → (s.layer_cache.testBit g = true ↔ s.group g ≠ 0)

/-- Representable states of the hierarchical bitmap: the group array has the
fixed length W and every word fits in W bits. -/
def wellFormed (w : Nat) (s : LargeBitField) : Prop :=
  s.bitfield.length = w ∧ s.layer_cache < 2 ^ w ∧ ∀ g, g < w → s.group g < 2 ^ w

end LargeBitField

/-
Helper lemmas about the bit-scan primitives and word-level operations.
-/

theorem lowBit_testBit (v : Nat) (h : v ≠ 0) : v.testBit (lowBit v) = true := by
  induction v using Nat.strong_induction_on with
  | _ v ih =>
    rw [lowBit]
    rw [dif_neg h]
    by_cases hodd : v % 2 = 1
    · simp [hodd, Nat.testBit_zero]
    · rw [if_neg hodd]
      have hv2 : v / 2 ≠ 0 := by
        intro h0
        have : v % 2 = 0 := Nat.mod_two_eq_zero_or_one v |>.resolve_right hodd
        omega
      have := ih (v / 2) (Nat.div_lt_self (Nat.pos_of_ne_zero h) (by decide)) hv2
      rw [Nat.testBit_succ]
      exact this

theorem lowBit_min : ∀ v, v ≠ 0 → ∀ j, j < lowBit v → v.testBit j = false := by
  intro v
  induction v using Nat.strong_induction_on with
  | _ v ih =>
    intro h j hj
    rw [lowBit, dif_neg h] at hj
    by_cases hodd : v % 2 = 1
    · rw [if_pos hodd] at hj
      omega
    · rw [if_neg hodd] at hj
      have hv2 : v / 2 ≠ 0 := by
        intro h0
        have : v % 2 = 0 := Nat.mod_two_eq_zero_or_one v |>.resolve_right hodd
        omega
      match j with
      | 0 =>
        simp [Nat.testBit_zero, hodd]
      | j + 1 =>
        rw [Nat.testBit_succ]
        exact ih (v / 2) (Nat.div_lt_self (Nat.pos_of_ne_zero h) (by decide)) hv2 j (by omega)

theorem lowBit_lt (w v : Nat) (h : v ≠ 0) (hv : v < 2 ^ w) : lowBit v < w := by
  by_contra hge
  have hle : w ≤ lowBit v := Nat.le_of_not_lt hge
  have : v < 2 ^ lowBit v :=
    Nat.lt_of_lt_of_le hv (Nat.pow_le_pow_right (by decide) hle)
  have := Nat.testBit_lt_two_pow this
  rw [lowBit_testBit v h] at this
  exact Bool.noConfusion this

theorem log2_testBit (v : Nat) (h : v ≠ 0) : v.testBit v.log2 = true := by
  have h1 : 2 ^ v.log2 ≤ v := Nat.log2_self_le h
  have h2 : v < 2 ^ (v.log2 + 1) := Nat.lt_log2_self
  rw [Nat.testBit_to_div_mod]
  have hdiv : v / 2 ^ v.log2 = 1 := by
    have hlow : 1 ≤ v / 2 ^ v.log2 := (Nat.le_div_iff_mul_le (Nat.two_pow_pos _)).2 (by omega)
    have hhigh : v / 2 ^ v.log2 < 2 := by
      rw [Nat.div_lt_iff_lt_mul (Nat.two_pow_pos _)]
      rw [Nat.pow_succ] at h2
      omega
    omega
  simp [hdiv]

theorem log2_max (v j : Nat) (hj : v.log2 < j) : v.testBit j = false := by
  by_cases h : v = 0
  · subst h
    exact Nat.zero_testBit j
  · have h2 : v < 2 ^ (v.log2 + 1) := Nat.lt_log2_self
    exact Nat.testBit_lt_two_pow
      (Nat.lt_of_lt_of_le h2 (Nat.pow_le_pow_right (by decide) (by omega)))

theorem log2_lt_width (w v : Nat) (h : v ≠ 0) (hv : v < 2 ^ w) : v.log2 < w :=
  (Nat.log2_lt h).2 hv

theorem lowBit_le_log2 (v : Nat) (h : v ≠ 0) : lowBit v ≤ v.log2 := by
  by_contra hgt
  have := log2_max v (lowBit v) (Nat.lt_of_not_le hgt)
  rw [lowBit_testBit v h] at this
  exact Bool.noConfusion this

theorem findLowestSetBit_pos (w v : Nat) (h : v ≠ 0) : findLowestSetBit w v = lowBit v := by
  rw [findLowestSetBit, if_neg h]

theorem findHighestSetBit_pos (w v : Nat) (h : v ≠ 0) (hv : v < 2 ^ w) :
    findHighestSetBit w v = v.log2 := by
  have hlt : v.log2 < w := log2_lt_width w v h hv
  rw [findHighestSetBit, leadingZeros, bitLen, if_neg h]
  omega

theorem and_one_shiftLeft_ne_zero (x k : Nat) :
    ((x &&& (1 <<< k)) != 0) = x.testBit k := by
  rw [Nat.one_shiftLeft, Nat.and_two_pow]
  cases h : x.testBit k
  · simp
  · simp only [Bool.toNat_true, Nat.one_mul]
    simp [pow_ne_zero k (by decide : (2 : Nat) ≠ 0)]

theorem wnot_testBit (w v i : Nat) :
    (wnot w v).testBit i = (decide (i < w) ^^ v.testBit i) := by
  rw [wnot, Nat.testBit_xor, Nat.testBit_two_pow_sub_one]

theorem testBit_lor_shift (x k i : Nat) :
    (x ||| 1 <<< k).testBit i = (x.testBit i || decide (k = i)) := by
  rw [Nat.one_shiftLeft, Nat.testBit_lor, Nat.testBit_two_pow]

theorem testBit_and_wnot_shift (x w k i : Nat) (hi : i < w) :
    (x &&& wnot w (1 <<< k)).testBit i = (x.testBit i && !decide (k = i)) := by
  rw [Nat.testBit_land, wnot_testBit, Nat.one_shiftLeft, Nat.testBit_two_pow]
  simp [hi]

theorem testBit_ge_width (x w i : Nat) (hx : x < 2 ^ w) (hiw : w ≤ i) : x.testBit i = false :=
  Nat.testBit_lt_two_pow
    (Nat.lt_of_lt_of_le hx (Nat.pow_le_pow_right (by decide) hiw))

theorem and_wnot_self_of_clear (x w k : Nat) (hx : x < 2 ^ w) (hk : x.testBit k = false) :
    x &&& wnot w (1 <<< k) = x := by
  apply Nat.eq_of_testBit_eq
  intro i
  by_cases hiw : i < w
  · rw [testBit_and_wnot_shift x w k i hiw]
    by_cases hik : k = i
    · subst hik
      simp [hk]
    · simp [hik]
  · rw [Nat.testBit_land]
    have hxi : x.testBit i = false := testBit_ge_width x w i hx (Nat.le_of_not_lt hiw)
    simp [hxi]

theorem lor_shift_idem (x k : Nat) : (x ||| 1 <<< k) ||| 1 <<< k = x ||| 1 <<< k := by
  rw [Nat.or_assoc, Nat.or_self]

theorem eq_zero_iff_testBit_lt (w v : Nat) (hv : v < 2 ^ w) :
    v = 0 ↔ ∀ i, i < w → v.testBit i = false := by
  constructor
  · intro h i _
    subst h
    exact Nat.zero_testBit i
  · intro h
    apply Nat.eq_of_testBit_eq
    intro i
    rw [Nat.zero_testBit]
    by_cases hiw : i < w
    · exact h i hiw
    · exact Nat.testBit_lt_two_pow
        (Nat.lt_of_lt_of_le hv (Nat.pow_le_pow_right (by decide) (Nat.le_of_not_lt hiw)))

theorem and_wnot_zero (w x : Nat) (hx : x < 2 ^ w) : x &&& wnot w 0 = x := by
  apply Nat.eq_of_testBit_eq
  intro i
  rw [Nat.testBit_land, wnot_testBit, Nat.zero_testBit]
  by_cases hiw : i < w
  · simp [hiw]
  · have hxi : x.testBit i = false := testBit_ge_width x w i hx (Nat.le_of_not_lt hiw)
    simp [hxi]

theorem getD_set_self (l : List Nat) (n : Nat) (a : Nat) (h : n < l.length) :
    (l.set n a).getD n 0 = a := by
  rw [List.getD_eq_getElem?_getD, List.getElem?_set_self h]
  rfl

theorem getD_set_ne (l : List Nat) (n m a : Nat) (h : n ≠ m) :
    (l.set n a).getD m 0 = l.getD m 0 := by
  rw [List.getD_eq_getElem?_getD, List.getElem?_set_ne h, ← List.getD_eq_getElem?_getD]

theorem set_getD_self (l : List Nat) (n : Nat) (h : n < l.length) :
    l.set n (l.getD n 0) = l := by
  apply List.ext_getElem?
  intro m
  by_cases hm : n = m
  · subst hm
    rw [List.getElem?_set_self h, List.getD_eq_getElem?_getD, List.getElem?_eq_getElem h]
    rfl
  · rw [List.getElem?_set_ne hm]

theorem scanLowestFrom_eq_some (p : Nat → Bool) :
    ∀ fuel start i, start ≤ i → i < start + fuel → p i = true →
      (∀ j, start ≤ j → j < i → p j = false) → scanLowestFrom p start fuel = some i := by
  intro fuel
  induction fuel with
  | zero =>
    intro start i h1 h2 _ _
    omega
  | succ fuel ih =>
    intro start i h1 h2 hp hmin
    rw [scanLowestFrom]
    by_cases hs : i = start
    · subst hs
      rw [if_pos hp]
    · have hps : p start = false := hmin start (Nat.le_refl _) (by omega)
      rw [if_neg (by simp [hps])]
      exact ih (start + 1) i (by omega) (by omega) hp (fun j hj1 hj2 => hmin j (by omega) hj2)

theorem naiveLowest_eq_some (cap : Nat) (p : Nat → Bool) (i : Nat) (hi : i < cap)
    (hp : p i = true) (hmin : ∀ j, j < i → p j = false) : naiveLowest cap p = some i :=
  scanLowestFrom_eq_some p cap 0 i (Nat.zero_le i) (by omega) hp (fun j _ hj => hmin j hj)

theorem naiveHighest_eq_some (cap : Nat) (p : Nat → Bool) (i : Nat) (hi : i < cap)
    (hp : p i = true) (hmax : ∀ j, i < j → j < cap → p j = false) :
    naiveHighest cap p = some i := by
  induction cap with
  | zero => omega
  | succ cap ih =>
    rw [naiveHighest]
    by_cases hs : i = cap
    · subst hs
      rw [if_pos hp]
    · have hpc : p cap = false := hmax cap (by omega) (by omega)
      rw [if_neg (by simp [hpc])]
      exact ih (by omega) (fun j hj1 hj2 => hmax j hj1 (by omega))

instance (w : Nat) (s : LargeBitField) : Decidable (LargeBitField.layerInvariant w s) :=
  decidable_of_iff (∀ g, g < w → (s.layer_cache.testBit g = true ↔ s.group g ≠ 0)) Iff.rfl

instance (w : Nat) (s : LargeBitField) : Decidable (LargeBitField.wellFormed w s) :=
  decidable_of_iff
    (s.bitfield.length = w ∧ s.layer_cache < 2 ^ w ∧ ∀ g, g < w → s.group g < 2 ^ w) Iff.rfl

instance (w : Nat) (s : SmallBitField) : Decidable (SmallBitField.wellFormed w s) :=
  decidable_of_iff (s.bitfield < 2 ^ w) Iff.rfl

/-
Claim theorems.
-/

/-- C1: the summary invariant is claimed to hold after every public mutation.
The checked LargeBitField::set_bit of src/src/large_bitfield.rs updates
layer_cache before its bounds test: at W = 64, set_bit(4096) on the empty
bitmap sets summary bit 0 (the masked shift 1 << 64 wraps to 1) while every
group word stays zero, so the invariant held before the call and is broken
after it. -/
theorem c1_out_of_range_set_bit_breaks_invariant :
    LargeBitField.layerInvariant 64 (LargeBitField.new 64) ∧
    ¬ LargeBitField.layerInvariant 64 (LargeBitField.set_bit 64 (LargeBitField.new 64) 4096) := by
  decide

/-- C2: checked set_bit and clear_bit on out-of-range indices are claimed to
leave the structure byte-for-byte unchanged. At W = 64, LargeBitField::set_bit
(src/src/large_bitfield.rs) at index 4096 changes layer_cache from 0 to 1 on
the empty bitmap, so the structure is not unchanged. -/
theorem c2_out_of_range_set_bit_changes_state :
    (LargeBitField.new 64).layer_cache = 0 ∧
    (LargeBitField.set_bit 64 (LargeBitField.new 64) 4096).layer_cache = 1 ∧
    LargeBitField.set_bit 64 (LargeBitField.new 64) 4096 ≠ LargeBitField.new 64 := by
  decide

/-- C4: checked operations are claimed never to perform an overflowing shift.
LargeBitField::set_bit at index 4096 (W = 64) computes 1 << 64, whose shift
amount equals the word width: under debug-build semantics the operation
panics, modelled as none. -/
theorem c4_out_of_range_set_bit_overflowing_shift :
    LargeBitField.set_bit_dbg 64 (LargeBitField.new 64) 4096 = none := by
  decide

/-- C7: for every state of either bitmap type, the checked get_lowest_set_bit
and get_highest_set_bit return none exactly when is_empty holds, and some
index otherwise. -/
theorem c7_checked_scan_none_iff_empty (w : Nat) (s : SmallBitField) (t : LargeBitField) :
    (s.get_lowest_set_bit w).isNone = s.is_empty ∧
    (s.get_highest_set_bit w).isNone = s.is_empty ∧
    (t.get_lowest_set_bit w).isNone = t.is_empty ∧
    (t.get_highest_set_bit w).isNone = t.is_empty := by
  refine ⟨?_, ?_, ?_, ?_⟩ <;>
    simp only [SmallBitField.get_lowest_set_bit, SmallBitField.get_highest_set_bit,
      LargeBitField.get_lowest_set_bit, LargeBitField.get_highest_set_bit] <;>
    split <;> simp_all

/-- C9: for every valid group index g, set_group(g, 0) and
set_group_unchecked(g, 0) leave the LargeBitField entirely unchanged: the
summary update is multiplied by zero and ORing a group word with zero has no
effect. -/
theorem c9_set_group_zero_is_noop (w : Nat) (t : LargeBitField) (g : Nat)
    (hg : g < w) (hlen : t.bitfield.length = w) :
    LargeBitField.set_group w t g 0 = t ∧ LargeBitField.set_group_unchecked t g 0 = t := by
  have hunch : LargeBitField.set_group_unchecked t g 0 = t := by
    simp only [LargeBitField.set_group_unchecked]
    have h0 : (if (0 : Nat) ≠ 0 then (1 : Nat) else 0) = 0 := by decide
    rw [h0, Nat.mul_zero, Nat.or_zero, Nat.or_zero, LargeBitField.group,
      set_getD_self t.bitfield g (by omega)]
  exact ⟨by rw [LargeBitField.set_group, if_pos hg, hunch], hunch⟩

/-- C9 witness: set_group(1, 0) at W = 4 leaves a concrete bitmap unchanged. -/
theorem c9_set_group_zero_is_noop_witness :
    LargeBitField.set_group 4 ⟨5, [2, 0, 9, 0]⟩ 1 0 = ⟨5, [2, 0, 9, 0]⟩ ∧
    LargeBitField.set_group_unchecked ⟨5, [2, 0, 9, 0]⟩ 1 0 = ⟨5, [2, 0, 9, 0]⟩ :=
  c9_set_group_zero_is_noop 4 ⟨5, [2, 0, 9, 0]⟩ 1 (by decide) (by decide)

/-- C10 counterexample: the two revisions of the hierarchical checked set_bit
disagree at index 4096 (W = 64): the lib.rs revision rejects the index before
touching any state, while the large_bitfield.rs revision has already ORed the
wrapped bit into layer_cache. -/
theorem c10_set_bit_revisions_differ :
    LargeBitField.set_bit 64 (LargeBitField.new 64) 4096 ≠
      LargeBitField.set_bit_v0 64 (LargeBitField.new 64) 4096 := by
  decide

/-- C10 amended: the two revisions of the hierarchical checked set_bit compute
the same final state for every starting state whose group array has the fixed
length W and every in-range index (index < W * W); they differ on out-of-range
indices. -/
theorem c10_set_bit_revisions_agree_in_range (w : Nat) (t : LargeBitField) (index : Nat)
    (hidx : index < w * w) (hlen : t.bitfield.length = w) :
    LargeBitField.set_bit w t index = LargeBitField.set_bit_v0 w t index := by
  have hw : 0 < w := by
    rcases Nat.eq_zero_or_pos w with h | h
    · subst h
      simp at hidx
    · exact h
  have htop : index / w < w := (Nat.div_lt_iff_lt_mul hw).2 hidx
  have hmod : index / w % w = index / w := Nat.mod_eq_of_lt htop
  simp only [LargeBitField.set_bit, LargeBitField.set_bit_v0]
  rw [if_neg (by omega : ¬ index ≥ w * w), if_pos (by omega : index / w < t.bitfield.length), hmod]

/-- C10 amended witness: the two revisions agree at the in-range index 5 on a
concrete bitmap with W = 4. -/
theorem c10_set_bit_revisions_agree_in_range_witness :
    LargeBitField.set_bit 4 ⟨5, [2, 0, 9, 0]⟩ 5 = LargeBitField.set_bit_v0 4 ⟨5, [2, 0, 9, 0]⟩ 5 :=
  c10_set_bit_revisions_agree_in_range 4 ⟨5, [2, 0, 9, 0]⟩ 5 (by decide) (by decide)

theorem small_test_bit_unchecked_eq (s : SmallBitField) (i : Nat) :
    s.test_bit_unchecked i = s.bitfield.testBit i := by
  rw [SmallBitField.test_bit_unchecked, and_one_shiftLeft_ne_zero]

theorem large_test_bit_unchecked_eq (w : Nat) (t : LargeBitField) (i : Nat) :
    t.test_bit_unchecked w i = (t.group (i / w)).testBit (i % w) := by
  rw [LargeBitField.test_bit_unchecked, and_one_shiftLeft_ne_zero]

theorem width_pos_of_lt_sq (w j : Nat) (hj : j < w * w) : 0 < w := by
  rcases Nat.eq_zero_or_pos w with h | h
  · subst h
    simp at hj
  · exact h

theorem set_bit_in_range_eq (w : Nat) (t : LargeBitField) (j : Nat)
    (hj : j < w * w) (hlen : t.bitfield.length = w) :
    LargeBitField.set_bit w t j =
      ⟨t.layer_cache ||| 1 <<< (j / w),
       t.bitfield.set (j / w) (t.group (j / w) ||| 1 <<< (j % w))⟩ := by
  have hw : 0 < w := width_pos_of_lt_sq w j hj
  have htop : j / w < w := (Nat.div_lt_iff_lt_mul hw).2 hj
  simp only [LargeBitField.set_bit]
  rw [Nat.mod_eq_of_lt htop, if_pos (by omega : j / w < t.bitfield.length)]

theorem clear_bit_in_range_eq (w : Nat) (t : LargeBitField) (j : Nat)
    (hj : j < w * w) (hlen : t.bitfield.length = w) :
    LargeBitField.clear_bit w t j =
      ⟨if t.group (j / w) &&& wnot w (1 <<< (j % w)) = 0 then
          t.layer_cache &&& wnot w (1 <<< (j / w))
        else t.layer_cache,
       t.bitfield.set (j / w) (t.group (j / w) &&& wnot w (1 <<< (j % w)))⟩ := by
  have hw : 0 < w := width_pos_of_lt_sq w j hj
  have htop : j / w < w := (Nat.div_lt_iff_lt_mul hw).2 hj
  simp only [LargeBitField.clear_bit]
  rw [if_pos (by omega : j / w < t.bitfield.length)]

/-- C5: for every in-range index and every starting state of either bitmap
type, test_bit reports some true right after set_bit and some false right
after the subsequent clear_bit. -/
theorem c5_set_clear_observed_by_test (w : Nat) (s : SmallBitField) (t : LargeBitField)
    (i j : Nat) (hi : i < w) (hj : j < w * w) (hlen : t.bitfield.length = w) :
    SmallBitField.test_bit w (SmallBitField.set_bit w s i) i = some true ∧
    SmallBitField.test_bit w
      (SmallBitField.clear_bit w (SmallBitField.set_bit w s i) i) i = some false ∧
    LargeBitField.test_bit w (LargeBitField.set_bit w t j) j = some true ∧
    LargeBitField.test_bit w
      (LargeBitField.clear_bit w (LargeBitField.set_bit w t j) j) j = some false := by
  have hw : 0 < w := by omega
  have htop : j / w < w := (Nat.div_lt_iff_lt_mul hw).2 hj
  have hb : j % w < w := Nat.mod_lt _ hw
  refine ⟨?_, ?_, ?_, ?_⟩
  · rw [SmallBitField.test_bit, if_pos hi, small_test_bit_unchecked_eq]
    simp only [SmallBitField.set_bit, if_pos hi]
    rw [testBit_lor_shift]
    simp
  · rw [SmallBitField.test_bit, if_pos hi, small_test_bit_unchecked_eq]
    simp only [SmallBitField.clear_bit, if_pos hi]
    rw [testBit_and_wnot_shift _ _ _ _ hi]
    simp
  · rw [LargeBitField.test_bit, if_pos hj, large_test_bit_unchecked_eq]
    rw [set_bit_in_range_eq w t j hj hlen]
    simp only [LargeBitField.group]
    rw [getD_set_self _ _ _ (by omega), testBit_lor_shift]
    simp
  · have hlen2 : (LargeBitField.set_bit w t j).bitfield.length = w := by
      rw [set_bit_in_range_eq w t j hj hlen]
      simp [List.length_set, hlen]
    rw [LargeBitField.test_bit, if_pos hj, large_test_bit_unchecked_eq]
    rw [clear_bit_in_range_eq w _ j hj hlen2]
    simp only [LargeBitField.group]
    rw [getD_set_self _ _ _ (by rw [hlen2]; omega)]
    rw [testBit_and_wnot_shift _ _ _ _ hb]
    simp

/-- C5 witness: at W = 4, index 2 on a concrete flat bitmap and index 9 on a
concrete hierarchical bitmap. -/
theorem c5_set_clear_observed_by_test_witness :
    SmallBitField.test_bit 4 (SmallBitField.set_bit 4 ⟨5⟩ 2) 2 = some true ∧
    SmallBitField.test_bit 4
      (SmallBitField.clear_bit 4 (SmallBitField.set_bit 4 ⟨5⟩ 2) 2) 2 = some false ∧
    LargeBitField.test_bit 4 (LargeBitField.set_bit 4 ⟨5, [2, 0, 9, 0]⟩ 9) 9 = some true ∧
    LargeBitField.test_bit 4
      (LargeBitField.clear_bit 4 (LargeBitField.set_bit 4 ⟨5, [2, 0, 9, 0]⟩ 9) 9) 9 =
        some false :=
  c5_set_clear_observed_by_test 4 ⟨5⟩ ⟨5, [2, 0, 9, 0]⟩ 2 9 (by decide) (by decide) (by decide)

theorem small_set_bit_idem (w : Nat) (s : SmallBitField) (i : Nat) :
    SmallBitField.set_bit w (SmallBitField.set_bit w s i) i = SmallBitField.set_bit w s i := by
  by_cases hi : i < w
  · simp only [SmallBitField.set_bit, if_pos hi]
    rw [lor_shift_idem]
  · simp only [SmallBitField.set_bit, if_neg hi]

theorem small_clear_bit_noop (w : Nat) (s : SmallBitField) (i : Nat)
    (hwf : s.wellFormed w) (hclear : s.bitfield.testBit i = false) :
    SmallBitField.clear_bit w s i = s := by
  by_cases hi : i < w
  · simp only [SmallBitField.clear_bit, if_pos hi]
    rw [and_wnot_self_of_clear s.bitfield w i hwf hclear]
  · simp only [SmallBitField.clear_bit, if_neg hi]

theorem large_set_bit_idem (w : Nat) (t : LargeBitField) (j : Nat)
    (hj : j < w * w) (hlen : t.bitfield.length = w) :
    LargeBitField.set_bit w (LargeBitField.set_bit w t j) j = LargeBitField.set_bit w t j := by
  have hw : 0 < w := width_pos_of_lt_sq w j hj
  have htop : j / w < w := (Nat.div_lt_iff_lt_mul hw).2 hj
  rw [set_bit_in_range_eq w t j hj hlen]
  rw [set_bit_in_range_eq w _ j hj (by simp [List.length_set, hlen])]
  simp only [LargeBitField.group]
  rw [getD_set_self _ _ _ (by omega), List.set_set, lor_shift_idem, lor_shift_idem]

theorem large_clear_bit_noop (w : Nat) (t : LargeBitField) (j : Nat)
    (hj : j < w * w) (hwf : LargeBitField.wellFormed w t)
    (hinv : LargeBitField.layerInvariant w t)
    (hclear : (t.group (j / w)).testBit (j % w) = false) :
    LargeBitField.clear_bit w t j = t := by
  obtain ⟨hlen, hlc, hg⟩ := hwf
  have hw : 0 < w := width_pos_of_lt_sq w j hj
  have htop : j / w < w := (Nat.div_lt_iff_lt_mul hw).2 hj
  have hsub : t.group (j / w) &&& wnot w (1 <<< (j % w)) = t.group (j / w) :=
    and_wnot_self_of_clear _ w _ (hg _ htop) hclear
  rw [clear_bit_in_range_eq w t j hj hlen, hsub]
  simp only [LargeBitField.group]
  rw [set_getD_self t.bitfield (j / w) (by omega)]
  by_cases h0 : t.bitfield.getD (j / w) 0 = 0
  · rw [if_pos h0]
    have hlcbit : t.layer_cache.testBit (j / w) = false := by
      cases hcase : t.layer_cache.testBit (j / w)
      · rfl
      · exact absurd ((hinv _ htop).1 hcase) (by simp only [ne_eq, not_not]; exact h0)
    rw [and_wnot_self_of_clear _ w _ hlc hlcbit]
  · rw [if_neg h0]

/-- C8: for every in-range index and every representable starting state of
either bitmap type, set_bit twice equals set_bit once, and clear_bit on an
index whose bit is already clear leaves the state unchanged (for the
hierarchical bitmap under its summary invariant). -/
theorem c8_set_idempotent_clear_noop (w : Nat) (s : SmallBitField) (t : LargeBitField)
    (i j : Nat) (hi : i < w) (hj : j < w * w) :
    SmallBitField.set_bit w (SmallBitField.set_bit w s i) i = SmallBitField.set_bit w s i ∧
    (s.wellFormed w → SmallBitField.test_bit w s i = some false →
      SmallBitField.clear_bit w s i = s) ∧
    (t.bitfield.length = w →
      LargeBitField.set_bit w (LargeBitField.set_bit w t j) j = LargeBitField.set_bit w t j) ∧
    (LargeBitField.wellFormed w t → LargeBitField.layerInvariant w t →
      LargeBitField.test_bit w t j = some false → LargeBitField.clear_bit w t j = t) := by
  refine ⟨small_set_bit_idem w s i, ?_, fun hlen => large_set_bit_idem w t j hj hlen, ?_⟩
  · intro hwf htest
    apply small_clear_bit_noop w s i hwf
    rw [SmallBitField.test_bit, if_pos hi, small_test_bit_unchecked_eq] at htest
    simpa using htest
  · intro hwf hinv htest
    apply large_clear_bit_noop w t j hj hwf hinv
    rw [LargeBitField.test_bit, if_pos hj, large_test_bit_unchecked_eq] at htest
    simpa using htest

/-- C8 witness: at W = 4 with concrete states, index 1 (flat, bit clear) and
index 2 (hierarchical, bit clear in group 0). -/
theorem c8_set_idempotent_clear_noop_witness :
    (SmallBitField.set_bit 4 (SmallBitField.set_bit 4 ⟨5⟩ 1) 1 = SmallBitField.set_bit 4 ⟨5⟩ 1 ∧
      (SmallBitField.wellFormed 4 ⟨5⟩ → SmallBitField.test_bit 4 ⟨5⟩ 1 = some false →
        SmallBitField.clear_bit 4 ⟨5⟩ 1 = ⟨5⟩) ∧
      ((⟨1, [1, 0, 0, 0]⟩ : LargeBitField).bitfield.length = 4 →
        LargeBitField.set_bit 4 (LargeBitField.set_bit 4 ⟨1, [1, 0, 0, 0]⟩ 2) 2 =
          LargeBitField.set_bit 4 ⟨1, [1, 0, 0, 0]⟩ 2) ∧
      (LargeBitField.wellFormed 4 ⟨1, [1, 0, 0, 0]⟩ →
        LargeBitField.layerInvariant 4 ⟨1, [1, 0, 0, 0]⟩ →
        LargeBitField.test_bit 4 ⟨1, [1, 0, 0, 0]⟩ 2 = some false →
        LargeBitField.clear_bit 4 ⟨1, [1, 0, 0, 0]⟩ 2 = ⟨1, [1, 0, 0, 0]⟩)) ∧
    SmallBitField.wellFormed 4 ⟨5⟩ ∧ SmallBitField.test_bit 4 ⟨5⟩ 1 = some false ∧
    LargeBitField.wellFormed 4 ⟨1, [1, 0, 0, 0]⟩ ∧
    LargeBitField.layerInvariant 4 ⟨1, [1, 0, 0, 0]⟩ ∧
    LargeBitField.test_bit 4 ⟨1, [1, 0, 0, 0]⟩ 2 = some false :=
  ⟨c8_set_idempotent_clear_noop 4 ⟨5⟩ ⟨1, [1, 0, 0, 0]⟩ 1 2 (by decide) (by decide),
   by decide, by decide, by decide, by decide, by decide⟩

/-- C6: is_empty returns true exactly when every in-range index tests as
some false, for the flat bitmap (by its word bound) and for the hierarchical
bitmap (under its summary invariant). -/
theorem c6_is_empty_iff_no_bit_set (w : Nat) (s : SmallBitField) (t : LargeBitField)
    (hs : s.wellFormed w) (ht : LargeBitField.wellFormed w t)
    (hinv : LargeBitField.layerInvariant w t) :
    (s.is_empty = true ↔ ∀ i, i < w → s.test_bit w i = some false) ∧
    (t.is_empty = true ↔ ∀ i, i < w * w → t.test_bit w i = some false) := by
  obtain ⟨hlen, hlc, hg⟩ := ht
  constructor
  · constructor
    · intro h i hi
      rw [SmallBitField.is_empty, beq_iff_eq] at h
      rw [SmallBitField.test_bit, if_pos hi, small_test_bit_unchecked_eq, h, Nat.zero_testBit]
    · intro h
      rw [SmallBitField.is_empty, beq_iff_eq, eq_zero_iff_testBit_lt w s.bitfield hs]
      intro i hi
      have hti := h i hi
      rw [SmallBitField.test_bit, if_pos hi, small_test_bit_unchecked_eq] at hti
      simpa using hti
  · constructor
    · intro h i hi
      have hw : 0 < w := width_pos_of_lt_sq w i hi
      have htop : i / w < w := (Nat.div_lt_iff_lt_mul hw).2 hi
      rw [LargeBitField.is_empty, beq_iff_eq] at h
      have hbit : t.layer_cache.testBit (i / w) = false := by
        rw [h]
        exact Nat.zero_testBit _
      have hgz : t.group (i / w) = 0 := by
        by_contra hne
        have hx := (hinv _ htop).2 hne
        rw [hbit] at hx
        exact Bool.noConfusion hx
      rw [LargeBitField.test_bit, if_pos hi, large_test_bit_unchecked_eq, hgz, Nat.zero_testBit]
    · intro h
      rw [LargeBitField.is_empty, beq_iff_eq, eq_zero_iff_testBit_lt w t.layer_cache hlc]
      intro g hgw
      have hw : 0 < w := by omega
      have hgz : t.group g = 0 := by
        rw [eq_zero_iff_testBit_lt w (t.group g) (hg g hgw)]
        intro b hb
        have h1 : g * w + b < (g + 1) * w := by
          rw [Nat.succ_mul]
          omega
        have h2 : (g + 1) * w ≤ w * w := Nat.mul_le_mul_right w (by omega)
        have hidx : g * w + b < w * w := by omega
        have hti := h (g * w + b) hidx
        have hdiv : (g * w + b) / w = g := by
          rw [Nat.add_comm, Nat.mul_comm, Nat.add_mul_div_left b g hw, Nat.div_eq_of_lt hb,
            Nat.zero_add]
        have hmod : (g * w + b) % w = b := by
          rw [Nat.add_comm, Nat.mul_comm, Nat.add_mul_mod_self_left, Nat.mod_eq_of_lt hb]
        rw [LargeBitField.test_bit, if_pos hidx, large_test_bit_unchecked_eq, hdiv, hmod] at hti
        simpa using hti
      cases hcase : t.layer_cache.testBit g
      · rfl
      · exact absurd ((hinv g hgw).1 hcase) (by simp only [ne_eq, not_not]; exact hgz)

/-- C6 witness: at W = 4 with a non-empty flat bitmap and a non-empty
hierarchical bitmap satisfying the invariant. -/
theorem c6_is_empty_iff_no_bit_set_witness :
    ((SmallBitField.is_empty ⟨5⟩ = true ↔
        ∀ i, i < 4 → SmallBitField.test_bit 4 ⟨5⟩ i = some false) ∧
      (LargeBitField.is_empty ⟨5, [2, 0, 9, 0]⟩ = true ↔
        ∀ i, i < 4 * 4 → LargeBitField.test_bit 4 ⟨5, [2, 0, 9, 0]⟩ i = some false)) ∧
    SmallBitField.wellFormed 4 ⟨5⟩ ∧ LargeBitField.wellFormed 4 ⟨5, [2, 0, 9, 0]⟩ ∧
    LargeBitField.layerInvariant 4 ⟨5, [2, 0, 9, 0]⟩ :=
  ⟨c6_is_empty_iff_no_bit_set 4 ⟨5⟩ ⟨5, [2, 0, 9, 0]⟩ (by decide) (by decide) (by decide),
   by decide, by decide, by decide⟩

theorem mul_add_div_eq (w g b : Nat) (hw : 0 < w) (hb : b < w) : (g * w + b) / w = g := by
  rw [Nat.add_comm, Nat.mul_comm, Nat.add_mul_div_left b g hw, Nat.div_eq_of_lt hb, Nat.zero_add]

theorem mul_add_mod_eq (w g b : Nat) (hb : b < w) : (g * w + b) % w = b := by
  rw [Nat.add_comm, Nat.mul_comm, Nat.add_mul_mod_self_left, Nat.mod_eq_of_lt hb]

theorem mul_add_lt_sq (w g b : Nat) (hg : g < w) (hb : b < w) : g * w + b < w * w := by
  have h1 : g * w + b < (g + 1) * w := by
    rw [Nat.succ_mul]
    exact Nat.add_lt_add_left hb _
  have h2 : (g + 1) * w ≤ w * w := Nat.mul_le_mul_right w (by omega)
  exact Nat.lt_of_lt_of_le h1 h2

theorem small_lowest_correct (w : Nat) (s : SmallBitField)
    (hwf : s.wellFormed w) (hne : s.bitfield ≠ 0) :
    s.get_lowest_set_bit w = some (lowBit s.bitfield) ∧
    naiveLowest w s.test_bit_unchecked = some (lowBit s.bitfield) := by
  have hlow : lowBit s.bitfield < w := lowBit_lt w _ hne hwf
  have hempty : s.is_empty = false := by simp [SmallBitField.is_empty, hne]
  constructor
  · simp only [SmallBitField.get_lowest_set_bit, hempty, Bool.false_eq_true, if_false,
      SmallBitField.get_lowest_set_bit_unchecked]
    rw [findLowestSetBit_pos w _ hne]
  · apply naiveLowest_eq_some w _ _ hlow
    · rw [small_test_bit_unchecked_eq]
      exact lowBit_testBit _ hne
    · intro k hk
      rw [small_test_bit_unchecked_eq]
      exact lowBit_min _ hne k hk

theorem small_highest_correct (w : Nat) (s : SmallBitField)
    (hwf : s.wellFormed w) (hne : s.bitfield ≠ 0) :
    s.get_highest_set_bit w = some s.bitfield.log2 ∧
    naiveHighest w s.test_bit_unchecked = some s.bitfield.log2 := by
  have hlog : s.bitfield.log2 < w := log2_lt_width w _ hne hwf
  have hempty : s.is_empty = false := by simp [SmallBitField.is_empty, hne]
  constructor
  · simp only [SmallBitField.get_highest_set_bit, hempty, Bool.false_eq_true, if_false,
      SmallBitField.get_highest_set_bit_unchecked]
    rw [findHighestSetBit_pos w _ hne hwf]
  · apply naiveHighest_eq_some w _ _ hlog
    · rw [small_test_bit_unchecked_eq]
      exact log2_testBit _ hne
    · intro k hk _
      rw [small_test_bit_unchecked_eq]
      exact log2_max _ k hk

theorem large_lowest_correct (w : Nat) (t : LargeBitField)
    (hwf : LargeBitField.wellFormed w t) (hinv : LargeBitField.layerInvariant w t)
    (hne : t.layer_cache ≠ 0) :
    t.get_lowest_set_bit w =
      some (lowBit t.layer_cache * w + lowBit (t.group (lowBit t.layer_cache))) ∧
    naiveLowest (w * w) (t.test_bit_unchecked w) =
      some (lowBit t.layer_cache * w + lowBit (t.group (lowBit t.layer_cache))) := by
  obtain ⟨hlen, hlc, hg⟩ := hwf
  have hg0 : lowBit t.layer_cache < w := lowBit_lt w _ hne hlc
  have hw : 0 < w := by omega
  have hgne : t.group (lowBit t.layer_cache) ≠ 0 :=
    (hinv _ hg0).1 (lowBit_testBit _ hne)
  have ho0 : lowBit (t.group (lowBit t.layer_cache)) < w :=
    lowBit_lt w _ hgne (hg _ hg0)
  have hempty : t.is_empty = false := by simp [LargeBitField.is_empty, hne]
  constructor
  · simp only [LargeBitField.get_lowest_set_bit, hempty, Bool.false_eq_true, if_false,
      LargeBitField.get_lowest_set_bit_unchecked]
    rw [findLowestSetBit_pos w _ hne, findLowestSetBit_pos w _ hgne]
  · apply naiveLowest_eq_some _ _ _ (mul_add_lt_sq w _ _ hg0 ho0)
    · rw [large_test_bit_unchecked_eq, mul_add_div_eq w _ _ hw ho0, mul_add_mod_eq w _ _ ho0]
      exact lowBit_testBit _ hgne
    · intro k hk
      rw [large_test_bit_unchecked_eq]
      have hgk_le : k / w ≤ lowBit t.layer_cache := by
        have h1 : k < (lowBit t.layer_cache + 1) * w := by
          rw [Nat.succ_mul]
          omega
        have := (Nat.div_lt_iff_lt_mul hw).2 h1
        omega
      rcases Nat.lt_or_ge (k / w) (lowBit t.layer_cache) with hlt | hge
      · have hbit : t.layer_cache.testBit (k / w) = false := lowBit_min _ hne _ hlt
        have hz : t.group (k / w) = 0 := by
          by_contra hnz
          have hx := (hinv _ (by omega)).2 hnz
          rw [hbit] at hx
          exact Bool.noConfusion hx
        rw [hz, Nat.zero_testBit]
      · have heq : k / w = lowBit t.layer_cache := by omega
        have hk_eq : w * (k / w) + k % w = k := Nat.div_add_mod k w
        rw [heq] at hk_eq
        have hsum : lowBit t.layer_cache * w + k % w <
            lowBit t.layer_cache * w + lowBit (t.group (lowBit t.layer_cache)) := by
          rw [Nat.mul_comm w (lowBit t.layer_cache)] at hk_eq
          omega
        have hok : k % w < lowBit (t.group (lowBit t.layer_cache)) :=
          Nat.lt_of_add_lt_add_left hsum
        rw [heq]
        exact lowBit_min _ hgne _ hok

theorem large_highest_correct (w : Nat) (t : LargeBitField)
    (hwf : LargeBitField.wellFormed w t) (hinv : LargeBitField.layerInvariant w t)
    (hne : t.layer_cache ≠ 0) :
    t.get_highest_set_bit w =
      some (t.layer_cache.log2 * w + (t.group t.layer_cache.log2).log2) ∧
    naiveHighest (w * w) (t.test_bit_unchecked w) =
      some (t.layer_cache.log2 * w + (t.group t.layer_cache.log2).log2) := by
  obtain ⟨hlen, hlc, hg⟩ := hwf
  have hg1 : t.layer_cache.log2 < w := log2_lt_width w _ hne hlc
  have hw : 0 < w := by omega
  have hgne : t.group t.layer_cache.log2 ≠ 0 :=
    (hinv _ hg1).1 (log2_testBit _ hne)
  have ho1 : (t.group t.layer_cache.log2).log2 < w :=
    log2_lt_width w _ hgne (hg _ hg1)
  have hempty : t.is_empty = false := by simp [LargeBitField.is_empty, hne]
  constructor
  · simp only [LargeBitField.get_highest_set_bit, hempty, Bool.false_eq_true, if_false,
      LargeBitField.get_highest_set_bit_unchecked]
    rw [findHighestSetBit_pos w _ hne hlc, findHighestSetBit_pos w _ hgne (hg _ hg1)]
  · apply naiveHighest_eq_some _ _ _ (mul_add_lt_sq w _ _ hg1 ho1)
    · rw [large_test_bit_unchecked_eq, mul_add_div_eq w _ _ hw ho1, mul_add_mod_eq w _ _ ho1]
      exact log2_testBit _ hgne
    · intro k hk hkcap
      rw [large_test_bit_unchecked_eq]
      have hgk_lt : k / w < w := (Nat.div_lt_iff_lt_mul hw).2 hkcap
      have hgk_ge : t.layer_cache.log2 ≤ k / w := by
        have h1 : t.layer_cache.log2 * w ≤ k := by omega
        exact (Nat.le_div_iff_mul_le hw).2 h1
      rcases Nat.lt_or_ge t.layer_cache.log2 (k / w) with hlt | hge
      · have hbit : t.layer_cache.testBit (k / w) = false := log2_max _ _ hlt
        have hz : t.group (k / w) = 0 := by
          by_contra hnz
          have hx := (hinv _ hgk_lt).2 hnz
          rw [hbit] at hx
          exact Bool.noConfusion hx
        rw [hz, Nat.zero_testBit]
      · have heq : k / w = t.layer_cache.log2 := by omega
        have hk_eq : w * (k / w) + k % w = k := Nat.div_add_mod k w
        rw [heq] at hk_eq
        have hsum : t.layer_cache.log2 * w + (t.group t.layer_cache.log2).log2 <
            t.layer_cache.log2 * w + k % w := by
          rw [Nat.mul_comm w t.layer_cache.log2] at hk_eq
          omega
        have hok : (t.group t.layer_cache.log2).log2 < k % w :=
          Nat.lt_of_add_lt_add_left hsum
        rw [heq]
        exact log2_max _ _ hok

/-- C3: on every non-empty well-formed state, the checked get_lowest_set_bit
and get_highest_set_bit of both bitmap types return some index, both results
equal a naive linear scan over all in-range indices (for the hierarchical
bitmap composed as group * W + offset from two bit-scans), and the lowest
result is at most the highest. -/
theorem c3_lowest_highest_equal_naive_scan (w : Nat) (s : SmallBitField) (t : LargeBitField)
    (hs_wf : s.wellFormed w) (hs_ne : s.is_empty = false)
    (ht_wf : LargeBitField.wellFormed w t) (ht_inv : LargeBitField.layerInvariant w t)
    (ht_ne : t.is_empty = false) :
    (s.get_lowest_set_bit w = naiveLowest w s.test_bit_unchecked ∧
     s.get_highest_set_bit w = naiveHighest w s.test_bit_unchecked ∧
     ∃ a b, s.get_lowest_set_bit w = some a ∧ s.get_highest_set_bit w = some b ∧ a ≤ b) ∧
    (t.get_lowest_set_bit w = naiveLowest (w * w) (t.test_bit_unchecked w) ∧
     t.get_highest_set_bit w = naiveHighest (w * w) (t.test_bit_unchecked w) ∧
     ∃ a b, t.get_lowest_set_bit w = some a ∧ t.get_highest_set_bit w = some b ∧ a ≤ b) := by
  have hsne : s.bitfield ≠ 0 := by
    intro h0
    rw [SmallBitField.is_empty, h0] at hs_ne
    simp at hs_ne
  have htne : t.layer_cache ≠ 0 := by
    intro h0
    rw [LargeBitField.is_empty, h0] at ht_ne
    simp at ht_ne
  obtain ⟨hl1, hl2⟩ := small_lowest_correct w s hs_wf hsne
  obtain ⟨hh1, hh2⟩ := small_highest_correct w s hs_wf hsne
  obtain ⟨hL1, hL2⟩ := large_lowest_correct w t ht_wf ht_inv htne
  obtain ⟨hH1, hH2⟩ := large_highest_correct w t ht_wf ht_inv htne
  obtain ⟨hlen, hlc, hg⟩ := ht_wf
  have hg0 : lowBit t.layer_cache < w := lowBit_lt w _ htne hlc
  have hg1 : t.layer_cache.log2 < w := log2_lt_width w _ htne hlc
  have hgne0 : t.group (lowBit t.layer_cache) ≠ 0 :=
    (ht_inv _ hg0).1 (lowBit_testBit _ htne)
  have hgne1 : t.group t.layer_cache.log2 ≠ 0 :=
    (ht_inv _ hg1).1 (log2_testBit _ htne)
  have ho0 : lowBit (t.group (lowBit t.layer_cache)) < w := lowBit_lt w _ hgne0 (hg _ hg0)
  have hle : lowBit t.layer_cache * w + lowBit (t.group (lowBit t.layer_cache)) ≤
      t.layer_cache.log2 * w + (t.group t.layer_cache.log2).log2 := by
    rcases Nat.lt_or_ge (lowBit t.layer_cache) t.layer_cache.log2 with hlt | hge
    · have h1 : lowBit t.layer_cache * w + lowBit (t.group (lowBit t.layer_cache)) <
          (lowBit t.layer_cache + 1) * w := by
        rw [Nat.succ_mul]
        omega
      have h2 : (lowBit t.layer_cache + 1) * w ≤ t.layer_cache.log2 * w :=
        Nat.mul_le_mul_right w (by omega)
      have h3 : t.layer_cache.log2 * w ≤
          t.layer_cache.log2 * w + (t.group t.layer_cache.log2).log2 :=
        Nat.le_add_right _ _
      omega
    · have heq : lowBit t.layer_cache = t.layer_cache.log2 := by
        have := lowBit_le_log2 _ htne
        omega
      rw [heq]
      exact Nat.add_le_add_left (lowBit_le_log2 _ (heq ▸ hgne0)) _
  refine ⟨⟨by rw [hl1, hl2], by rw [hh1, hh2],
      ⟨lowBit s.bitfield, s.bitfield.log2, hl1, hh1, lowBit_le_log2 _ hsne⟩⟩,
    ⟨by rw [hL1, hL2], by rw [hH1, hH2], ⟨_, _, hL1, hH1, hle⟩⟩⟩

/-- C3 witness: at W = 4 with the non-empty flat bitmap 6 (bits 1 and 2) and a
non-empty hierarchical bitmap whose groups 0 and 2 are occupied. -/
theorem c3_lowest_highest_equal_naive_scan_witness :
    (SmallBitField.wellFormed 4 ⟨6⟩ ∧ SmallBitField.is_empty ⟨6⟩ = false ∧
      LargeBitField.wellFormed 4 ⟨5, [2, 0, 9, 0]⟩ ∧
      LargeBitField.layerInvariant 4 ⟨5, [2, 0, 9, 0]⟩ ∧
      LargeBitField.is_empty ⟨5, [2, 0, 9, 0]⟩ = false) ∧
    ((SmallBitField.get_lowest_set_bit 4 ⟨6⟩ =
        naiveLowest 4 (SmallBitField.test_bit_unchecked ⟨6⟩) ∧
      SmallBitField.get_highest_set_bit 4 ⟨6⟩ =
        naiveHighest 4 (SmallBitField.test_bit_unchecked ⟨6⟩) ∧
      ∃ a b, SmallBitField.get_lowest_set_bit 4 ⟨6⟩ = some a ∧
        SmallBitField.get_highest_set_bit 4 ⟨6⟩ = some b ∧ a ≤ b) ∧
     (LargeBitField.get_lowest_set_bit 4 ⟨5, [2, 0, 9, 0]⟩ =
        naiveLowest (4 * 4) (LargeBitField.test_bit_unchecked 4 ⟨5, [2, 0, 9, 0]⟩) ∧
      LargeBitField.get_highest_set_bit 4 ⟨5, [2, 0, 9, 0]⟩ =
        naiveHighest (4 * 4) (LargeBitField.test_bit_unchecked 4 ⟨5, [2, 0, 9, 0]⟩) ∧
      ∃ a b, LargeBitField.get_lowest_set_bit 4 ⟨5, [2, 0, 9, 0]⟩ = some a ∧
        LargeBitField.get_highest_set_bit 4 ⟨5, [2, 0, 9, 0]⟩ = some b ∧ a ≤ b)) :=
  ⟨⟨by decide, by decide, by decide, by decide, by decide⟩,
   c3_lowest_highest_equal_naive_scan 4 ⟨6⟩ ⟨5, [2, 0, 9, 0]⟩
     (by decide) (by decide) (by decide) (by decide) (by decide)⟩
